import Mathlib

/-
Shallow embedding of the Go package `merkletree` (file merkletree/merkletree.go)
of the repository zvikinoza/merkle-tree.

Modelling conventions:
* a byte is a `Nat`, a byte buffer is a `List Nat`;
* a Go `hash.Hash` context is created fresh per node, written to exactly once,
  and finalized with `Sum(nil)`; it is therefore modelled as a pure digest
  function `hf : List Nat → List Nat` applied to the bytes written (the
  injected factory `newHash`, whose default is SHA-256, is kept abstract);
* a `*node` pointer is the inductive `NTree`, whose `nil` constructor is the
  nil pointer;
* `chopData` and `buildTree` in the source can fail to terminate when
  `segmentSize = 0`, so both are embedded with an explicit fuel parameter and
  return `none` when the fuel runs out (or, for `buildTree`, when the source
  would dereference a nil child); for `segmentSize ≥ 1` the chosen fuel is
  proved sufficient and the result is `some _`;
* the Go constructor returns a `(tree, error)` pair whose error is the literal
  `nil` on every path, so the error channel is dropped and `none` in
  `Option MerkleTree` marks only non-termination of construction.
-/

/-- NTree models the Go pointer type `*node` (merkletree.go:20-24): `nil` is
the nil pointer, and `node l r d` is a heap node whose stored hashing context
finalizes to the digest `d`. -/
inductive NTree where
  | nil : NTree
  | node : NTree → NTree → List Nat → NTree
deriving DecidableEq

/-- MerkleTree models the Go struct `MerkleTree` (merkletree.go:13-18).
The field `newHash` is the injected hash factory, modelled as the pure digest
function computed by one fresh context. -/
structure MerkleTree where
  root : NTree
  data : List Nat
  segmentSize : Nat
  newHash : List Nat → List Nat

/-- chopData models the Go loop `chopData` (merkletree.go:55-65): starting at
index `i = 0` it copies `min(dataLen - i, segmentSize)` bytes and advances `i`
by `segmentSize`; here the suffix `data[i:]` is the list argument,
`List.take segmentSize` realises the `min`, and `List.drop segmentSize`
advances the index.  The fuel argument models the (possibly non-terminating,
when `segmentSize = 0`) loop: `none` means the loop has not finished within
`fuel` iterations. -/
def chopData (segmentSize : Nat) : Nat → List Nat → Option (List (List Nat))
  | _, [] => some []
  | 0, _ :: _ => none
  | fuel + 1, d :: rest =>
      (chopData segmentSize fuel ((d :: rest).drop segmentSize)).map
        (fun segs => (d :: rest).take segmentSize :: segs)

/-- buildTree models the Go method `(*MerkleTree).buildTree` (merkletree.go:68-98).
The leaf branch of the source writes `segments[0]` into the hash and then
executes `segments = segments[1:]`; that assignment rebinds a local slice
header and is invisible to every caller, so each recursive call receives the
same segment list and each leaf hashes the head segment.  The fuel models the
recursion (non-terminating when `segmentSize = 0` and `e - s > 0`); `none`
also covers the nil-child dereference `n.left.hash.Sum(nil)` the source would
perform if a child were nil, which cannot happen for a non-empty segment
list. -/
def buildTree (hf : List Nat → List Nat) (segmentSize : Nat) :
    Nat → List (List Nat) → Nat → Nat → Option NTree
  | 0, _, _, _ => none
  | _ + 1, [], _, _ => some .nil
  | fuel + 1, s0 :: rest, s, e =>
      if e - s ≤ segmentSize then
        some (.node .nil .nil (hf s0))
      else
        match buildTree hf segmentSize fuel (s0 :: rest) s (s + (e - s) / 2),
              buildTree hf segmentSize fuel (s0 :: rest) (s + (e - s) / 2) e with
        | some (.node ll lr ld), some (.node rl rr rd) =>
            some (.node (.node ll lr ld) (.node rl rr rd) (hf (ld ++ rd)))
        | _, _ => none

/-- NewMerkleTreeWithCostumHash models the Go constructor of the same name
(merkletree.go:41-52): it stores the buffer and segment size, chops the data,
and builds the tree over the byte range `[0, len(data))`.  The fuel passed to
each phase is `data.length` resp. `data.length + 1`, which is proved
sufficient whenever `segmentSize ≥ 1`; `none` marks the non-terminating
`segmentSize = 0` executions.  The Go error result is the literal `nil` on
every path and is dropped. -/
def NewMerkleTreeWithCostumHash (data : List Nat) (segmentSize : Nat)
    (hf : List Nat → List Nat) : Option MerkleTree :=
  match chopData segmentSize data.length data with
  | none => none
  | some segments =>
      match buildTree hf segmentSize (data.length + 1) segments 0 data.length with
      | none => none
      | some root => some ⟨root, data, segmentSize, hf⟩

/-- GetRootHash models `(*MerkleTree).GetRootHash` (merkletree.go:101-103):
`mt.root.hash.Sum(nil)`.  When `root` is the nil pointer the source faults
with a nil-pointer dereference (a runtime panic, not a returned error); that
crash is modelled by `none`. -/
def GetRootHash (mt : MerkleTree) : Option (List Nat) :=
  match mt.root with
  | .nil => none
  | .node _ _ d => some d

/-- subTreeEquals models `(*node).subTreeEquals` (merkletree.go:125-137),
including its digest comparison exactly as written in the source: the line
`bytes.Equal(n.hash.Sum(nil), n.hash.Sum(nil))` compares the digest of `n`
with the digest of `n` itself (not with `o`), so the test can never fail and
the walk only compares tree shapes. -/
def subTreeEquals : NTree → NTree → Bool
  | .nil, .nil => true
  | .node _ _ _, .nil => false
  | .nil, .node _ _ _ => false
  | .node nl nr nd, .node ol orr _ =>
      if !(nd == nd) then false
      else subTreeEquals nl ol && subTreeEquals nr orr

/-- Equals models `(*MerkleTree).Equals` (merkletree.go:121-123). -/
def MerkleTree.Equals (mt other : MerkleTree) : Bool :=
  subTreeEquals mt.root other.root

/-- Validate models `(*MerkleTree).Validate` (merkletree.go:106-112): rebuild
from the stored `data`, `segmentSize` and `newHash`, then compare with
`Equals`.  The `err != nil` branch of the source is dead (the constructor
never returns a non-nil error); `none` here marks only a non-terminating
rebuild. -/
def Validate (mt : MerkleTree) : Option Bool :=
  (NewMerkleTreeWithCostumHash mt.data mt.segmentSize mt.newHash).map
    (fun nmt => mt.Equals nmt)

/-- leafCount counts the nodes with no children (leaves) of a tree. -/
def leafCount : NTree → Nat
  | .nil => 0
  | .node .nil .nil _ => 1
  | .node l r _ => leafCount l + leafCount r

/-- internalCount counts the nodes with at least one child. -/
def internalCount : NTree → Nat
  | .nil => 0
  | .node .nil .nil _ => 0
  | .node l r _ => internalCount l + internalCount r + 1

/-- isFull decides whether every node of the tree has zero or two children. -/
def isFull : NTree → Bool
  | .nil => true
  | .node .nil .nil _ => true
  | .node .nil (.node _ _ _) _ => false
  | .node (.node _ _ _) .nil _ => false
  | .node (.node ll lr ld) (.node rl rr rd) _ =>
      isFull (.node ll lr ld) && isFull (.node rl rr rd)

/-- rootShape extracts, from a constructed tree, the pair (leaves of the root
left subtree, leaves of the root right subtree); `none` if construction
diverged or the root is nil. -/
def rootShape : Option MerkleTree → Option (Nat × Nat)
  | some mt =>
      match mt.root with
      | .node l r _ => some (leafCount l, leafCount r)
      | .nil => none
  | none => none

/-- optEquals lifts `Equals` to the optional results of two constructions. -/
def optEquals : Option MerkleTree → Option MerkleTree → Option Bool
  | some a, some b => some (a.Equals b)
  | _, _ => none

/-- optRootHash lifts `GetRootHash` to the optional result of a construction. -/
def optRootHash : Option MerkleTree → Option (Option (List Nat))
  | some a => some (GetRootHash a)
  | none => none

/-- dataAbc8 is the byte buffer b"abcdefgh". -/
def dataAbc8 : List Nat := [97, 98, 99, 100, 101, 102, 103, 104]

/-- dataXbc8 is the byte buffer b"xbcdefgh": dataAbc8 with byte 0 flipped. -/
def dataXbc8 : List Nat := [120, 98, 99, 100, 101, 102, 103, 104]

/-- dataAbcX8 is the byte buffer b"abcdxfgh": dataAbc8 with byte 4 flipped. -/
def dataAbcX8 : List Nat := [97, 98, 99, 100, 120, 102, 103, 104]

/-- dataAbc9 is the byte buffer b"abcdefghi". -/
def dataAbc9 : List Nat := [97, 98, 99, 100, 101, 102, 103, 104, 105]

/-- mtAbc is the tree the source builds over b"abcdefgh" with segment size 4
(the hash factory is instantiated with the identity digest). -/
def mtAbc : Option MerkleTree := NewMerkleTreeWithCostumHash dataAbc8 4 id

/-- mtXbc is the tree the source builds over b"xbcdefgh" with segment size 4. -/
def mtXbc : Option MerkleTree := NewMerkleTreeWithCostumHash dataXbc8 4 id

/-- Helper: for a positive segment size and fuel at least the buffer length,
the chop loop terminates and produces the left-to-right non-overlapping
windows of the buffer: they concatenate back to the buffer, there are
`ceil(length / S)` of them, and window `i` is `(data.drop (i*S)).take S`. -/
theorem chopData_spec (S : Nat) (hS : 1 ≤ S) :
    ∀ fuel (data : List Nat), data.length ≤ fuel →
      ∃ segs, chopData S fuel data = some segs ∧
        segs.flatten = data ∧
        segs.length = (data.length + S - 1) / S ∧
        (∀ i, i < segs.length → segs.getD i [] = (data.drop (i * S)).take S) := by
  intro fuel
  induction fuel with
  | zero =>
      intro data hlen
      have hd : data = [] := List.eq_nil_of_length_eq_zero (Nat.le_zero.mp hlen)
      subst hd
      refine ⟨[], rfl, rfl, ?_, ?_⟩
      · simp [Nat.div_eq_of_lt (show S - 1 < S by omega)]
      · intro i hi; simp at hi
  | succ fuel ih =>
      intro data hlen
      match data with
      | [] =>
          refine ⟨[], rfl, rfl, ?_, ?_⟩
          · simp [Nat.div_eq_of_lt (show S - 1 < S by omega)]
          · intro i hi; simp at hi
      | d :: rest =>
          have hlen2 : ((d :: rest).drop S).length ≤ fuel := by
            simp only [List.length_drop, List.length_cons]
            simp only [List.length_cons] at hlen
            omega
          obtain ⟨segsT, hEq, hJoin, hLen, hIdx⟩ := ih ((d :: rest).drop S) hlen2
          refine ⟨(d :: rest).take S :: segsT, ?_, ?_, ?_, ?_⟩
          · simp [chopData, hEq]
          · simp only [List.flatten_cons]
            rw [hJoin, List.take_append_drop]
          · simp only [List.length_cons, List.length_drop] at hLen ⊢
            rw [hLen]
            have h1 : rest.length + 1 + S - 1 = rest.length + S := by omega
            rw [h1, Nat.add_div_right _ (show 0 < S by omega)]
            have h2 : (rest.length + 1 - S + S - 1) / S = rest.length / S := by
              rcases le_or_lt (rest.length + 1) S with hc | hc
              · have e0 : rest.length + 1 - S = 0 := by omega
                rw [e0]
                have e1 : 0 + S - 1 = S - 1 := by omega
                rw [e1, Nat.div_eq_of_lt (show S - 1 < S by omega),
                    Nat.div_eq_of_lt (show rest.length < S by omega)]
              · have e1 : rest.length + 1 - S + S - 1 = rest.length := by omega
                rw [e1]
            rw [h2]
          · intro i hi
            match i with
            | 0 => simp
            | i + 1 =>
                simp only [List.getD_cons_succ]
                have hi2 : i < segsT.length := by
                  simp only [List.length_cons] at hi; omega
                rw [hIdx i hi2, List.drop_drop, Nat.succ_mul, Nat.add_comm S (i * S)]

/-- Helper: for a positive segment size, a non-empty segment list, and fuel
exceeding the width of the byte range, the recursive build terminates and
produces a non-nil full binary tree whose leaves jointly cover the range:
`e - s ≤ leafCount * S`. -/
theorem buildTree_total (hf : List Nat → List Nat) (S : Nat) (hS : 1 ≤ S)
    (s0 : List Nat) (rest : List (List Nat)) :
    ∀ fuel s e, e - s < fuel →
      ∃ l r d, buildTree hf S fuel (s0 :: rest) s e = some (.node l r d) ∧
        isFull (.node l r d) = true ∧ e - s ≤ leafCount (.node l r d) * S := by
  intro fuel
  induction fuel with
  | zero => intro s e h; omega
  | succ fuel ih =>
      intro s e h
      by_cases hle : e - s ≤ S
      · refine ⟨.nil, .nil, hf s0, ?_, rfl, ?_⟩
        · simp [buildTree, hle]
        · simpa [leafCount] using hle
      · push_neg at hle
        have hm1 : (s + (e - s) / 2) - s < fuel := by omega
        have hm2 : e - (s + (e - s) / 2) < fuel := by omega
        obtain ⟨ll, lr, ld, hl, hfl, hcl⟩ := ih s (s + (e - s) / 2) hm1
        obtain ⟨rl, rr, rd, hr, hfr, hcr⟩ := ih (s + (e - s) / 2) e hm2
        refine ⟨.node ll lr ld, .node rl rr rd, hf (ld ++ rd), ?_, ?_, ?_⟩
        · simp only [buildTree]
          rw [if_neg (by omega), hl, hr]
        · rw [show isFull (.node (.node ll lr ld) (.node rl rr rd) (hf (ld ++ rd)))
                = (isFull (.node ll lr ld) && isFull (.node rl rr rd)) from rfl,
              hfl, hfr]
          rfl
        · rw [show leafCount (.node (.node ll lr ld) (.node rl rr rd) (hf (ld ++ rd)))
                = leafCount (.node ll lr ld) + leafCount (.node rl rr rd) from rfl]
          have h3 := Nat.add_le_add hcl hcr
          rw [← Nat.add_mul] at h3
          have h4 : (s + (e - s) / 2) - s + (e - (s + (e - s) / 2)) = e - s := by omega
          rw [h4] at h3
          exact h3

/-- Helper: the recursive build never inspects anything of the segment list
beyond its head, because the reslicing in the leaf branch of the source is
local to the call: builds over segment lists with equal heads coincide. -/
theorem buildTree_head_only (hf : List Nat → List Nat) (S : Nat) (s0 : List Nat)
    (rest1 rest2 : List (List Nat)) :
    ∀ fuel s e,
      buildTree hf S fuel (s0 :: rest1) s e = buildTree hf S fuel (s0 :: rest2) s e := by
  intro fuel
  induction fuel with
  | zero => intro s e; rfl
  | succ fuel ih =>
      intro s e
      simp only [buildTree]
      rw [ih s (s + (e - s) / 2), ih (s + (e - s) / 2) e]

/-- Helper: with a segment size of zero the chop loop never advances its
index, so it fails to terminate on any non-empty buffer, whatever the fuel. -/
theorem chopData_zero_none (d : Nat) (rest : List Nat) :
    ∀ fuel, chopData 0 fuel (d :: rest) = none := by
  intro fuel
  induction fuel with
  | zero => rfl
  | succ fuel ih => simp [chopData, ih]

/-- Helper: with a segment size of zero the leaf threshold `e - s ≤ 0` never
fires on a non-empty range, and the right recursive call repeats a non-empty
range, so the build fails to terminate, whatever the fuel. -/
theorem buildTree_zero_none (hf : List Nat → List Nat) (s0 : List Nat)
    (rest : List (List Nat)) :
    ∀ fuel s e, s < e → buildTree hf 0 fuel (s0 :: rest) s e = none := by
  intro fuel
  induction fuel with
  | zero => intro s e _; rfl
  | succ fuel ih =>
      intro s e hse
      have hmid : s + (e - s) / 2 < e := by omega
      have hr := ih (s + (e - s) / 2) e hmid
      simp only [buildTree]
      rw [if_neg (by omega), hr]
      cases hl : buildTree hf 0 fuel (s0 :: rest) s (s + (e - s) / 2) with
      | none => rfl
      | some t => cases t <;> rfl

/-- Helper: if `len ≤ c * S` then `ceil(len / S) ≤ c` (for positive `S`). -/
theorem ceil_div_le_of_le_mul {S c len : Nat} (hS : 1 ≤ S) (h : len ≤ c * S) :
    (len + S - 1) / S ≤ c := by
  have h1 : len + S - 1 ≤ c * S + (S - 1) := by
    have h2 : len + (S - 1) ≤ c * S + (S - 1) := Nat.add_le_add_right h _
    calc len + S - 1 = len + (S - 1) := by omega
      _ ≤ c * S + (S - 1) := h2
  have h3 : (c * S + (S - 1)) / S = c := by
    rw [Nat.mul_comm c S, Nat.mul_add_div (show 0 < S by omega),
        Nat.div_eq_of_lt (show S - 1 < S by omega), Nat.add_zero]
  calc (len + S - 1) / S ≤ (c * S + (S - 1)) / S := Nat.div_le_div_right h1
    _ = c := h3

/-- C1: the claim says each leaf hashes the next unconsumed segment (leaf `i`
hashes segment `i`), giving root `H(H(abcd) ++ H(efgh))` for b"abcdefgh" with
segment size 4.  Evaluating the source on that input shows otherwise: the
reslicing `segments = segments[1:]` in the leaf branch is local to the call,
so both leaves hash segment 0 (b"abcd") and the root digest is
`hf (hf abcd ++ hf abcd)` for every hash factory `hf`, hence in particular
not `H(H(abcd) ++ H(efgh))` for the default SHA-256. -/
theorem c1_build_eval_abcdefgh (hf : List Nat → List Nat) :
    NewMerkleTreeWithCostumHash dataAbc8 4 hf =
      some ⟨.node (.node .nil .nil (hf [97, 98, 99, 100]))
                  (.node .nil .nil (hf [97, 98, 99, 100]))
                  (hf (hf [97, 98, 99, 100] ++ hf [97, 98, 99, 100])),
            dataAbc8, 4, hf⟩ := rfl

/-- C2: the claim says `Equals` holds iff corresponding digests match, so two
trees built from different buffers of equal length (whose digests differ, here
with the injective identity digest) must not be equal.  Evaluating the source
shows `Equals` returns true anyway: its digest comparison tests a node digest
against itself, so only shapes are compared. -/
theorem c2_equals_shape_only_eval :
    optEquals mtAbc mtXbc = some true ∧ optRootHash mtAbc ≠ optRootHash mtXbc :=
  ⟨rfl, by decide⟩

/-- C3: the claim says `Validate` returns false after the stored buffer is
replaced by a different one.  Evaluating the source: on the unmodified tree
`Validate` returns true, but after replacing `data` b"abcdefgh" with
b"xbcdefgh" it still returns true, because the rebuilt tree has the same shape
and the equality walk compares digests against themselves. -/
theorem c3_validate_after_replace_eval :
    (mtAbc.map fun mt => Validate mt) = some (some true) ∧
    (mtAbc.map fun mt => Validate { mt with data := dataXbc8 }) = some (some true) :=
  ⟨rfl, rfl⟩

/-- C4 counterexample: for the 8-byte buffer `[0,…,7]` and segment size 3 the
built tree has 4 leaves, while `ceil(8/3) = 3`, so the claimed leaf-count
invariant fails. -/
theorem c4_leafcount_ne_ceil_cex :
    (NewMerkleTreeWithCostumHash [0, 1, 2, 3, 4, 5, 6, 7] 3 id).map
        (fun mt => leafCount mt.root) = some 4 ∧
    (NewMerkleTreeWithCostumHash [0, 1, 2, 3, 4, 5, 6, 7] 3 id).map
        (fun mt => leafCount mt.root)
      ≠ some ((([0, 1, 2, 3, 4, 5, 6, 7] : List Nat).length + 3 - 1) / 3) := by
  refine ⟨by decide, by decide⟩

/-- C4 amended: for every non-empty buffer and segment size `S ≥ 1`
construction succeeds, the root is present, the tree is a full binary tree,
and the leaf count is at least `ceil(length/S)` (equality fails in general,
see the counterexample). -/
theorem c4_full_tree_leafcount_ge_ceil (hf : List Nat → List Nat) (S : Nat)
    (data : List Nat) (hS : 1 ≤ S) (hd : data ≠ []) :
    ∃ mt, NewMerkleTreeWithCostumHash data S hf = some mt ∧
      mt.root ≠ .nil ∧ isFull mt.root = true ∧
      (data.length + S - 1) / S ≤ leafCount mt.root := by
  obtain ⟨segs, hChop, hJoin, hLen, hIdx⟩ :=
    chopData_spec S hS data.length data (Nat.le_refl _)
  have hne : segs ≠ [] := by
    intro hx; rw [hx] at hJoin; exact hd hJoin.symm
  rcases segs with _ | ⟨s0, rest⟩
  · exact absurd rfl hne
  obtain ⟨l, r, dg, hBuild, hFull, hCount⟩ :=
    buildTree_total hf S hS s0 rest (data.length + 1) 0 data.length (by omega)
  have hstep : NewMerkleTreeWithCostumHash data S hf =
      match buildTree hf S (data.length + 1) (s0 :: rest) 0 data.length with
      | none => none
      | some root => some ⟨root, data, S, hf⟩ := by
    unfold NewMerkleTreeWithCostumHash
    rw [hChop]
  refine ⟨⟨.node l r dg, data, S, hf⟩, ?_, ?_, hFull, ?_⟩
  · rw [hstep, hBuild]
  · intro hx; exact NTree.noConfusion hx
  · exact ceil_div_le_of_le_mul hS (by simpa using hCount)

/-- C4 witness: instance of the amended claim at buffer `[5,6]`, segment
size 1. -/
theorem c4_witness :
    ∃ mt, NewMerkleTreeWithCostumHash [5, 6] 1 id = some mt ∧
      mt.root ≠ .nil ∧ isFull mt.root = true ∧
      (([5, 6] : List Nat).length + 1 - 1) / 1 ≤ leafCount mt.root :=
  c4_full_tree_leafcount_ge_ceil id 1 [5, 6] (by decide) (by decide)

/-- C5: the claim says flipping any single byte changes the root digest.
Evaluating the source on b"abcdefgh" with byte 4 flipped (b"abcdxfgh"),
segment size 4: the root digest is unchanged for every hash factory, because
every leaf hashes segment 0 and the flipped byte lies in segment 1. -/
theorem c5_flip_byte_same_root_eval (hf : List Nat → List Nat) :
    (NewMerkleTreeWithCostumHash dataAbc8 4 hf).map GetRootHash =
    (NewMerkleTreeWithCostumHash dataAbcX8 4 hf).map GetRootHash := rfl

/-- C6: the root digest depends only on the buffer length, the segment size,
and the bytes of the first segment: two equal-length buffers agreeing on
their first `min(S, length)` bytes produce identical root digests under the
same hash factory, because the leaf branch of the source never consumes
segments, so every leaf hashes segment 0. -/
theorem c6_root_depends_on_first_segment (hf : List Nat → List Nat) (S : Nat)
    (d1 d2 : List Nat) (hS : 1 ≤ S) (hlen : d1.length = d2.length)
    (hpre : d1.take S = d2.take S) :
    (NewMerkleTreeWithCostumHash d1 S hf).map GetRootHash =
    (NewMerkleTreeWithCostumHash d2 S hf).map GetRootHash := by
  rcases d1 with _ | ⟨a, t1⟩
  · have hd2 : d2 = [] := List.eq_nil_of_length_eq_zero (by simpa using hlen.symm)
    subst hd2; rfl
  · rcases d2 with _ | ⟨b, t2⟩
    · simp at hlen
    · obtain ⟨segs1, hChop1, hJoin1, hLen1, hIdx1⟩ :=
        chopData_spec S hS (a :: t1).length (a :: t1) (Nat.le_refl _)
      obtain ⟨segs2, hChop2, hJoin2, hLen2, hIdx2⟩ :=
        chopData_spec S hS (b :: t2).length (b :: t2) (Nat.le_refl _)
      have hne1 : segs1 ≠ [] := by
        intro hx; rw [hx] at hJoin1; exact (List.cons_ne_nil a t1) hJoin1.symm
      have hne2 : segs2 ≠ [] := by
        intro hx; rw [hx] at hJoin2; exact (List.cons_ne_nil b t2) hJoin2.symm
      rcases segs1 with _ | ⟨h1, r1⟩
      · exact absurd rfl hne1
      rcases segs2 with _ | ⟨h2, r2⟩
      · exact absurd rfl hne2
      have hh1 : h1 = (a :: t1).take S := by
        have hx := hIdx1 0 (by simp)
        simpa using hx
      have hh2 : h2 = (b :: t2).take S := by
        have hx := hIdx2 0 (by simp)
        simpa using hx
      have hh : h1 = h2 := by rw [hh1, hh2, hpre]
      have hb : buildTree hf S ((a :: t1).length + 1) (h1 :: r1) 0 (a :: t1).length =
          buildTree hf S ((b :: t2).length + 1) (h2 :: r2) 0 (b :: t2).length := by
        rw [← hlen, ← hh]
        exact buildTree_head_only hf S h1 r1 r2 ((a :: t1).length + 1) 0 (a :: t1).length
      have hN1 : NewMerkleTreeWithCostumHash (a :: t1) S hf =
          match buildTree hf S ((a :: t1).length + 1) (h1 :: r1) 0 (a :: t1).length with
          | none => none
          | some root => some ⟨root, a :: t1, S, hf⟩ := by
        unfold NewMerkleTreeWithCostumHash
        rw [hChop1]
      have hN2 : NewMerkleTreeWithCostumHash (b :: t2) S hf =
          match buildTree hf S ((b :: t2).length + 1) (h2 :: r2) 0 (b :: t2).length with
          | none => none
          | some root => some ⟨root, b :: t2, S, hf⟩ := by
        unfold NewMerkleTreeWithCostumHash
        rw [hChop2]
      rw [hN1, hN2, hb]
      cases hB : buildTree hf S ((b :: t2).length + 1) (h2 :: r2) 0 (b :: t2).length with
      | none => rfl
      | some root => rfl

/-- C6 witness: buffers `[1,2,3]` and `[1,2,9]` differ only in their last
byte, beyond the first segment (size 2), and get identical root digests. -/
theorem c6_witness :
    ([1, 2, 3] : List Nat) ≠ [1, 2, 9] ∧
    (NewMerkleTreeWithCostumHash [1, 2, 3] 2 id).map GetRootHash =
    (NewMerkleTreeWithCostumHash [1, 2, 9] 2 id).map GetRootHash :=
  ⟨by decide,
   c6_root_depends_on_first_segment id 2 [1, 2, 3] [1, 2, 9] (by decide) (by decide)
     (by decide)⟩

/-- C7 counterexample: the empty buffer yields a nil root (first conjunct, as
the claim says), but root-digest retrieval on that tree reaches the nil-root
dereference (`GetRootHash = none`, modelling the Go nil-pointer panic): it
crashes instead of being defined as an error, refuting the second half of the
claim. -/
theorem c7_getroothash_empty_cex :
    (NewMerkleTreeWithCostumHash [] 1 id).map (fun mt => mt.root) = some .nil ∧
    (NewMerkleTreeWithCostumHash [] 1 id).map GetRootHash = some none :=
  ⟨rfl, rfl⟩

/-- C7 amended: a buffer of length 0 yields a tree whose root is absent, and
calling `GetRootHash` on that tree dereferences the nil root — a runtime
crash (modelled by `none`), not a defined error value. -/
theorem c7_empty_root_absent_amended (hf : List Nat → List Nat) (S : Nat) :
    ∃ mt, NewMerkleTreeWithCostumHash [] S hf = some mt ∧
      mt.root = .nil ∧ GetRootHash mt = none :=
  ⟨⟨.nil, [], S, hf⟩, rfl, rfl, rfl⟩

/-- C8: construction terminates (and, the Go error channel being the literal
nil, returns no error) for every buffer when `segmentSize ≥ 1`; with
`segmentSize = 0` and a non-empty buffer both the chop loop and the recursive
build run forever — they return `none` for every fuel bound — and so does the
whole construction. -/
theorem c8_termination :
    (∀ (hf : List Nat → List Nat) (S : Nat) (data : List Nat), 1 ≤ S →
       (NewMerkleTreeWithCostumHash data S hf).isSome = true) ∧
    (∀ data : List Nat, data ≠ [] → ∀ fuel, chopData 0 fuel data = none) ∧
    (∀ (hf : List Nat → List Nat) (segs : List (List Nat)) (s e : Nat),
       segs ≠ [] → s < e → ∀ fuel, buildTree hf 0 fuel segs s e = none) ∧
    (∀ (hf : List Nat → List Nat) (data : List Nat), data ≠ [] →
       NewMerkleTreeWithCostumHash data 0 hf = none) := by
  refine ⟨?_, ?_, ?_, ?_⟩
  · intro hf S data hS
    rcases data with _ | ⟨d, t⟩
    · rfl
    · obtain ⟨segs, hChop, hJoin, _, _⟩ :=
        chopData_spec S hS (d :: t).length (d :: t) (Nat.le_refl _)
      have hne : segs ≠ [] := by
        intro hx; rw [hx] at hJoin; exact (List.cons_ne_nil d t) hJoin.symm
      rcases segs with _ | ⟨s0, r⟩
      · exact absurd rfl hne
      obtain ⟨l, rr, dg, hBuild, _, _⟩ :=
        buildTree_total hf S hS s0 r ((d :: t).length + 1) 0 (d :: t).length (by omega)
      have hstep : NewMerkleTreeWithCostumHash (d :: t) S hf =
          match buildTree hf S ((d :: t).length + 1) (s0 :: r) 0 (d :: t).length with
          | none => none
          | some root => some ⟨root, d :: t, S, hf⟩ := by
        unfold NewMerkleTreeWithCostumHash
        rw [hChop]
      rw [hstep, hBuild]
      rfl
  · intro data hne fuel
    rcases data with _ | ⟨d, t⟩
    · exact absurd rfl hne
    · exact chopData_zero_none d t fuel
  · intro hf segs s e hne hse fuel
    rcases segs with _ | ⟨s0, r⟩
    · exact absurd rfl hne
    · exact buildTree_zero_none hf s0 r fuel s e hse
  · intro hf data hne
    rcases data with _ | ⟨d, t⟩
    · exact absurd rfl hne
    · unfold NewMerkleTreeWithCostumHash
      rw [chopData_zero_none d t (d :: t).length]

/-- C8 witness: instances of all four conjuncts at concrete inputs. -/
theorem c8_termination_witness :
    (NewMerkleTreeWithCostumHash [7, 8] 1 id).isSome = true ∧
    chopData 0 2 [7, 8] = none ∧
    buildTree id 0 3 [[7, 8]] 0 2 = none ∧
    NewMerkleTreeWithCostumHash [7, 8] 0 id = none :=
  ⟨c8_termination.1 id 1 [7, 8] (by decide),
   c8_termination.2.1 [7, 8] (by decide) 2,
   c8_termination.2.2.1 id [[7, 8]] 0 2 (by decide) (by decide) 3,
   c8_termination.2.2.2 id [7, 8] (by decide)⟩

/-- C9 counterexample: for b"abcdefghi" with segment size 4 the claim puts
two leaves under the root's left child and a single leaf as the root's right
child; evaluating the source, the split of `[0,9)` at 4 makes the LEFT child
the single leaf and the right child the internal node with two leaves, so the
claimed shape `(2, 1)` is refuted. -/
theorem c9_structure_cex :
    rootShape (NewMerkleTreeWithCostumHash dataAbc9 4 id) ≠ some (2, 1) := by decide

/-- C9 amended: for b"abcdefghi" with segment size 4, segmentation yields
`[b"abcd", b"efgh", b"i"]` and the tree has 3 leaves and 2 internal nodes,
with the single leaf directly under the root on the LEFT (range `[0,4)`) and
an internal right subtree covering the remaining two leaves (ranges `[4,6)`
and `[6,9)`). -/
theorem c9_structure_amended :
    chopData 4 dataAbc9.length dataAbc9 =
      some [[97, 98, 99, 100], [101, 102, 103, 104], [105]] ∧
    rootShape (NewMerkleTreeWithCostumHash dataAbc9 4 id) = some (1, 2) ∧
    (NewMerkleTreeWithCostumHash dataAbc9 4 id).map
        (fun mt => (leafCount mt.root, internalCount mt.root)) = some (3, 2) ∧
    (NewMerkleTreeWithCostumHash dataAbc9 4 id).map
        (fun mt => isFull mt.root) = some true :=
  ⟨by decide, by decide, by decide, by decide⟩

/-- C10: the segmenter is a pure function that, for `S ≥ 1`, terminates with
fuel `data.length` and scans left to right: segment `i` is
`(data.drop (i*S)).take S` (so the final window holds `min(S, remaining)`
bytes), the segments concatenate back to the buffer (no padding, no dropped
tail), their number is `ceil(length/S)`, and the empty buffer yields the
empty sequence. -/
theorem c10_chopdata_spec (data : List Nat) (S : Nat) (hS : 1 ≤ S) :
    ∃ segs, chopData S data.length data = some segs ∧
      segs.flatten = data ∧
      segs.length = (data.length + S - 1) / S ∧
      (data = [] → segs = []) ∧
      (∀ i, i < segs.length → segs.getD i [] = (data.drop (i * S)).take S) := by
  obtain ⟨segs, h1, h2, h3, h4⟩ := chopData_spec S hS data.length data (Nat.le_refl _)
  refine ⟨segs, h1, h2, h3, ?_, h4⟩
  intro hd
  subst hd
  have hz : segs.length = 0 := by
    rw [h3]
    have e1 : List.length ([] : List Nat) + S - 1 = S - 1 := by simp
    rw [e1]
    exact Nat.div_eq_of_lt (by omega)
  exact List.eq_nil_of_length_eq_zero hz

/-- C10 witness: instance at buffer `[1,2,3,4,5]`, segment size 2. -/
theorem c10_chopdata_witness :
    ∃ segs, chopData 2 ([1, 2, 3, 4, 5] : List Nat).length [1, 2, 3, 4, 5] = some segs ∧
      segs.flatten = [1, 2, 3, 4, 5] ∧
      segs.length = (([1, 2, 3, 4, 5] : List Nat).length + 2 - 1) / 2 ∧
      (([1, 2, 3, 4, 5] : List Nat) = [] → segs = []) ∧
      (∀ i, i < segs.length →
        segs.getD i [] = (([1, 2, 3, 4, 5] : List Nat).drop (i * 2)).take 2) :=
  c10_chopdata_spec [1, 2, 3, 4, 5] 2 (by decide)
